import Mathlib

/-!
Verification of the restart-request classification and alerting engine
(slackbot_api).  The definitions below are a shallow embedding of the
Python source, principally of bot.py (the most complete revision):
the keyword regexes (bot.py lines 47-51), SlackClient.send_alert and
SlackClient.reset_alert (lines 81-97), RestartAnalyzer
.extract_restart_requests (lines 104-109), RestartAnalyzer
.extract_services (lines 111-164) and RestartAnalyzer.count_restarts
(lines 166-175).
-/

/-- Word character in the sense of the regex class backslash-w used by the
word-boundary assertions in the keyword patterns (ASCII letters, digits,
underscore; all inputs here are ASCII). -/
def isWordChar (c : Char) : Bool := c.isAlphanum || c == '_'

/-- Python str.isspace set relevant to the regex class backslash-s and to
str.strip for the ASCII texts handled by the bot. -/
def isPySpace (c : Char) : Bool :=
  c == ' ' || c == '\t' || c == '\n' || c == '\r' || c == '\x0b' || c == '\x0c'

/-- Case-insensitive literal match of a keyword (first list) against the
front of the text (second list), as re.IGNORECASE does for the ASCII
keywords of the bot. -/
def ciMatches : List Char → List Char → Bool
  | [], _ => true
  | _ :: _, [] => false
  | k :: ks, c :: cs => (k.toLower == c.toLower) && ciMatches ks cs

/-- The trailing word-boundary assertion of the keyword patterns: the
match must be followed by end of text or a non-word character (all
keywords end in a word character). -/
def boundaryAfter : List Char → Bool
  | [] => true
  | c :: _ => !isWordChar c

/-- One attempt of the compiled alternation at a fixed position: the
preceding character (if any) must be a non-word character (leading
word-boundary; every keyword starts with a letter), and the alternatives
are tried in pattern order, each with its own trailing word-boundary
check, exactly as the backtracking engine does.  Returns the length of
the matched keyword. -/
def matchLenAt (kws : List String) (prev : Option Char) (s : List Char) : Option Nat :=
  if prev.any isWordChar then none
  else
    kws.findSome? fun kw =>
      if ciMatches kw.data s && boundaryAfter (s.drop kw.data.length) then
        some kw.data.length
      else none

/-- Left-to-right non-overlapping scan of re.findall: at each position try
the alternation; on a match emit the matched text (original casing) and
resume after it, otherwise advance one character.  The fuel argument is
the initial text length; every step consumes at least one character (all
keywords are non-empty), so the fuel never runs out. -/
def scanKeywords (kws : List String) : Nat → Option Char → List Char → List String
  | 0, _, _ => []
  | _ + 1, _, [] => []
  | fuel + 1, prev, c :: cs =>
    match matchLenAt kws prev (c :: cs) with
    | some n =>
      let tok := (c :: cs).take n
      String.mk tok :: scanKeywords kws fuel (some (tok.getLastD c)) ((c :: cs).drop n)
    | none => scanKeywords kws fuel (some c) cs

/-- re.findall of a word-bounded keyword alternation over a text. -/
def regexFindall (kws : List String) (s : String) : List String :=
  scanKeywords kws s.data.length none s.data

/-- re.search of a word-bounded keyword alternation, as a Boolean. -/
def regexSearch (kws : List String) (s : String) : Bool :=
  !(regexFindall kws s).isEmpty

/-- RESTART_KEYWORDS (bot.py line 47): reboot or restart as whole words,
case-insensitive. -/
def restartKeywordList : List String := ["reboot", "restart"]

/-- SERVICE_KEYWORDS (bot.py lines 48-51): the service-synonym
alternation, in the exact pattern order, case-insensitive. -/
def serviceKeywordList : List String :=
  ["ecn/mm", "ECN/MM", "ecn and mm", "ECN and MM", "ecn", "mm",
   "market maker", "price-aggregator", "price_aggregator", "pa",
   "market driver", "md", "risk manager", "manager", "MDDRIVER",
   "drivers", "driver", "RiskManager"]

example : regexFindall serviceKeywordList "restart mm - A + B" = ["mm"] := by decide
example : regexFindall serviceKeywordList "restart pa: X1\necn - Y2" = ["pa", "ecn"] := by decide
example : regexSearch restartKeywordList "*restart* ecn/mm now" = true := by decide
example : regexFindall serviceKeywordList "restart RiskManager: b" = ["RiskManager"] := by decide
example : regexFindall serviceKeywordList "mddriver and drivers" = ["mddriver", "drivers"] := by decide

/-- Python str.lower for the ASCII texts in play. -/
def pyLower (s : String) : String := String.mk (s.data.map Char.toLower)

/-- Python str.strip (remove leading and trailing whitespace). -/
def pyStrip (s : String) : String :=
  String.mk (((s.data.dropWhile isPySpace).reverse.dropWhile isPySpace).reverse)

/-- Case-sensitive literal match of one character list against the front
of another. -/
def litMatches : List Char → List Char → Bool
  | [], _ => true
  | _ :: _, [] => false
  | k :: ks, c :: cs => (k == c) && litMatches ks cs

/-- Python substring containment (the needle-in-haystack operator),
case-sensitive. -/
def pyIn (needle hay : String) : Bool :=
  pyInAux needle.data hay.data
where
  pyInAux (n : List Char) : List Char → Bool
    | [] => litMatches n []
    | c :: cs => litMatches n (c :: cs) || pyInAux n cs

/-- The capture group of the details pattern dash-or-colon clause, applied
to the text right after the separator character.  The pattern tail is:
greedy whitespace, then a lazy non-empty capture of non-newline
characters, then newline-or-end.  With backtracking this means: if a
non-space character remains, the capture runs from the first non-space
character to the next newline (or the end); if only whitespace remains,
the capture degenerates to the last character that is not a newline; if
only newlines (or nothing) remain there is no match at this position. -/
def captureFrom (t : List Char) : Option (List Char) :=
  match t.dropWhile isPySpace with
  | c :: cs => some (c :: cs.takeWhile (fun d => d != '\n'))
  | [] =>
    match t.reverse.dropWhile (fun d => d == '\n') with
    | [] => none
    | c :: _ => some [c]

/-- One attempt of the details pattern (bot.py line 127) at a fixed
position: the escaped matched keyword (case-insensitive, no word
boundary), then optional whitespace, then a dash or colon, then the
capture tail of captureFrom. -/
def clauseAt (mtext : List Char) (s : List Char) : Option (List Char) :=
  if ciMatches mtext s then
    match (s.drop mtext.length).dropWhile isPySpace with
    | [] => none
    | c :: rest => if c == '-' || c == ':' then captureFrom rest else none
  else none

/-- re.search of the details pattern: leftmost position where the whole
clause matches; on failure the scan advances one character (all matched
keywords are non-empty, so the position past the end never matches). -/
def searchClause (mtext : List Char) : List Char → Option (List Char)
  | [] => none
  | c :: cs =>
    match clauseAt mtext (c :: cs) with
    | some cap => some cap
    | none => searchClause mtext cs

example : searchClause "pa".data "restart pa: X1\necn - Y2".data = some "X1".data := by decide
example : searchClause "ecn".data "restart pa: X1\necn - Y2".data = some "Y2".data := by decide
example : searchClause "pa".data "restart pa:  ".data = some " ".data := by decide
example : searchClause "pa".data "restart pa:\n\n".data = none := by decide
example : searchClause "pa".data "restart pa:\nX".data = some "X".data := by decide

/-- Splitting a string at separator characters; the empty string yields
one empty piece, as re.split does.  The source splits with the separators
padded by optional whitespace and then strips every piece (bot.py lines
137, 152, 159); splitting at the bare separator characters and stripping
each piece afterwards produces the same pieces, which is how the two
split rules below are phrased. -/
def splitOnChars (seps : List Char) : List Char → List (List Char)
  | [] => [[]]
  | c :: cs =>
    if seps.contains c then [] :: splitOnChars seps cs
    else
      match splitOnChars seps cs with
      | t :: ts => (c :: t) :: ts
      | [] => [[c]]

/-- The comma/slash/pipe split rule with per-piece strip (bot.py lines
137, 140, 143, 146, 149 followed by the strip of line 159). -/
def splitCSP (details : String) : List String :=
  (splitOnChars [',', '/', '|'] details.data).map (fun t => pyStrip (String.mk t))

/-- The pipe/comma/plus split rule of the final else branch with
per-piece strip (bot.py line 152 followed by the strip of line 159). -/
def splitCP (details : String) : List String :=
  (splitOnChars ['|', ',', '+'] details.data).map (fun t => pyStrip (String.mk t))

example : splitCP "A, B + REF" = ["A", "B", "REF"] := by decide
example : splitCSP "A + B" = ["A + B"] := by decide
example : splitCSP "BookA, BookB" = ["BookA", "BookB"] := by decide

/-- The service dictionary: an insertion-ordered association list from
service key to its detail set.  Python dicts preserve insertion order;
the Python detail sets are modelled canonically as lists kept sorted in
the order of Ord String and without duplicates. -/
abbrev SDict := List (String × List String)

/-- Keys of a service dictionary, in insertion order. -/
def dictKeys (d : SDict) : List String := d.map Prod.fst

/-- Lookup of a key in a service dictionary. -/
def dictLookup (d : SDict) (k : String) : Option (List String) :=
  match d with
  | [] => none
  | (k', v) :: rest => if k' == k then some v else dictLookup rest k

/-- Insertion of one element into the canonical (sorted, duplicate-free)
representation of a Python set of strings. -/
def setInsert (x : String) : List String → List String
  | [] => [x]
  | y :: ys =>
    if x == y then y :: ys
    else if compare x y == Ordering.lt then x :: y :: ys
    else y :: setInsert x ys

/-- Python set.update with a list of tokens. -/
def setInsertAll (v : List String) (toks : List String) : List String :=
  toks.foldl (fun acc t => setInsert t acc) v

/-- Python dict item assignment (replaces the value of an existing key in
place, otherwise appends the key). -/
def dictAssign (d : SDict) (k : String) (v : List String) : SDict :=
  match d with
  | [] => [(k, v)]
  | (k', v') :: rest =>
    if k' == k then (k', v) :: rest else (k', v') :: dictAssign rest k v

/-- The accumulation step of bot.py lines 156-159: create the key with an
empty set if absent, then update the set with the stripped tokens. -/
def dictUpdate (d : SDict) (k : String) (toks : List String) : SDict :=
  match d with
  | [] => [(k, setInsertAll [] toks)]
  | (k', v) :: rest =>
    if k' == k then (k', setInsertAll v toks) :: rest
    else (k', v) :: dictUpdate rest k toks

/-- The risk-manager special case test of bot.py line 130 on the lowered
matched text. -/
def riskManagerCase (s : String) : Bool := s == "riskmanager" || s == "risk-manager"

/-- The service-key column of the branch ladder of bot.py lines 130-152:
the canonical key under which a match with the given lowered text is
recorded (the final else branch keeps the lowered text itself). -/
def serviceKeyOf (s : String) : String :=
  if riskManagerCase s then "risk-manager"
  else if s == "price-aggregator" || s == "price_aggregator" || s == "pa" then
    "price-aggregator"
  else if s == "ecn/mm" || s == "ecn and mm" then "ecn/mm"
  else if s == "driver" || s == "mddriver" || s == "drivers" || s == "md" then
    "market-driver"
  else if s == "mm" || s == "MM" then "mm"
  else if s == "ecn" || s == "ECN" then "ecn"
  else s

/-- The split-rule column of the same branch ladder: these lowered names
use the comma/slash/pipe split, everything else falls to the final else
branch with the pipe/comma/plus split. -/
def usesSlashSplit (s : String) : Bool :=
  s == "price-aggregator" || s == "price_aggregator" || s == "pa" ||
  s == "ecn/mm" || s == "ecn and mm" ||
  s == "driver" || s == "mddriver" || s == "drivers" || s == "md" ||
  s == "mm" || s == "MM" || s == "ecn" || s == "ECN"

/-- The detail tokens a match with the given lowered text extracts from a
stripped details clause (bot.py lines 136-152 with the per-token strip of
line 159). -/
def detailTokensOf (s : String) (details : String) : List String :=
  if usesSlashSplit s then splitCSP details else splitCP details

/-- Processing of one findall match inside RestartAnalyzer
.extract_services (bot.py lines 124-161): lower the matched text; the
risk-manager special case assigns the sentinel set, otherwise search the
request for a details clause and, when found, record the stripped and
split tokens under the branch ladder's key. -/
def processMatch (request : String) (d : SDict) (m : String) : SDict :=
  let service_name := pyLower m
  if riskManagerCase service_name then dictAssign d "risk-manager" ["1"]
  else
    match searchClause m.data request.data with
    | none => d
    | some cap =>
      let details := pyStrip (String.mk cap)
      dictUpdate d (serviceKeyOf service_name) (detailTokensOf service_name details)

/-- Processing of one restart request (bot.py lines 114-161): fold the
match processing over every findall match of the request. -/
def processRequest (d : SDict) (request : String) : SDict :=
  (regexFindall serviceKeywordList request).foldl (processMatch request) d

/-- Comparison used to render a detail set: Python sorts only by length
and leaves the order of equal-length items to the set's iteration order,
which is unspecified; the canonical sorted storage makes the rendering
deterministic with a lexicographic tie-break. -/
def lenLt (a b : String) : Bool :=
  a.length < b.length || (a.length == b.length && compare a b == Ordering.lt)

/-- Insertion into a list sorted by lenLt. -/
def insertByLen (x : String) : List String → List String
  | [] => [x]
  | y :: ys => if lenLt x y then x :: y :: ys else y :: insertByLen x ys

/-- Rendering of one detail set as the sorted list of bot.py line 164. -/
def renderVal (v : List String) : List String := v.foldr insertByLen []

/-- RestartAnalyzer.extract_services (bot.py lines 111-164): fold over
the requests, then render every detail set sorted by length. -/
def extract_services (restart_requests_list : List String) : SDict :=
  (restart_requests_list.foldl processRequest []).map fun kv => (kv.1, renderVal kv.2)

example :
    extract_services ["restart market driver: A, B + REF"] =
      [("market driver", ["A", "B", "REF"])] := by decide

example :
    extract_services ["restart mm - A + B"] = [("mm", ["A + B"])] := by decide

example :
    extract_services ["restart risk manager: A"] = [("risk manager", ["A"])] := by decide

example :
    extract_services ["restart RiskManager: blah"] = [("risk-manager", ["1"])] := by decide

example :
    extract_services ["### restart: ecn/mm - BookA, BookB"] =
      [("ecn/mm", ["BookA", "BookB"])] := by decide

/-- The scoring reduction of RestartAnalyzer.count_restarts (bot.py lines
170-174): per service, the number of details weighted by 2 for the keys
ecn/mm and ecn and mm (1 otherwise), plus one for every detail containing
the substring "+ REF". -/
def count_score (services_names : SDict) : Nat :=
  (services_names.map fun kv =>
    kv.2.length * (if kv.1 == "ecn/mm" || kv.1 == "ecn and mm" then 2 else 1)
      + kv.2.countP (fun s => pyIn "+ REF" s)).sum

/-- The per-service weight as the claim states it: 2 for the merged
ecn/mm service and its word-order variant, 1 otherwise. -/
def specWeight (k : String) : Nat :=
  if k == "ecn/mm" || k == "ecn and mm" then 2 else 1

/-- The scoring formula exactly as claim C1 states it: the sum over
services of detail count times weight, plus, summed over services, the
number of detail tokens containing the substring "REF". -/
def claimedScore (d : SDict) : Nat :=
  (d.map fun kv => kv.2.length * specWeight kv.1).sum
    + (d.map fun kv => kv.2.countP (fun s => pyIn "REF" s)).sum

/-- The same two-sum formula with the bonus substring the code actually
tests, namely "+ REF". -/
def amendedScore (d : SDict) : Nat :=
  (d.map fun kv => kv.2.length * specWeight kv.1).sum
    + (d.map fun kv => kv.2.countP (fun s => pyIn "+ REF" s)).sum

example : count_score [("market-driver", ["REF"])] = 1 := by decide
example : claimedScore [("market-driver", ["REF"])] = 2 := by decide
example : count_score [("ecn/mm", ["BookA", "BookB"])] = 4 := by decide
example : count_score [("market driver", ["A", "B", "A + REF"])] = 4 := by decide

/-- A raw Slack message as the filter sees it: a record whose text field
may be absent (msg.get with a default covers the absent case). -/
structure SlackMessage where
  text : Option String

/-- The filter condition of bot.py line 108: a restart keyword and a
service keyword must both be found in the defaulted text. -/
def isRestartRequest (t : String) : Bool :=
  regexSearch restartKeywordList t && regexSearch serviceKeywordList t

/-- Python str.replace of every asterisk by the empty string (bot.py line
106). -/
def removeStar (s : String) : String := String.mk (s.data.filter (fun c => c != '*'))

/-- RestartAnalyzer.extract_restart_requests (bot.py lines 104-109): the
list comprehension keeps the messages whose defaulted text passes both
keyword searches and emits their text with every asterisk removed; the
emission reads the text field directly, which is modelled as a fallible
access so that a hypothetical direct read of an absent field surfaces as
an error rather than being papered over. -/
def extract_restart_requests : List SlackMessage → Except Unit (List String)
  | [] => Except.ok []
  | msg :: rest =>
    if isRestartRequest ((msg.text).getD "") then
      match msg.text with
      | none => Except.error ()
      | some t => do
        let tail ← extract_restart_requests rest
        Except.ok (removeStar t :: tail)
    else extract_restart_requests rest

example :
    extract_restart_requests [⟨some "*restart* ecn/mm now"⟩] =
      Except.ok ["restart ecn/mm now"] := by rfl
example : isRestartRequest "" = false := by decide
example : extract_restart_requests [⟨none⟩, ⟨some ""⟩] = Except.ok [] := by rfl

/-- SlackClient.send_alert (bot.py lines 81-89): when the flag is not yet
set, attempt the notification; the flag is set only when the delivery
succeeds (the exception path leaves it unchanged).  Returns the new flag
and whether an alert message went out. -/
def send_alert (alert_sent : Bool) (deliveryOk : Bool) : Bool × Bool :=
  if alert_sent then (alert_sent, false)
  else if deliveryOk then (true, true)
  else (false, false)

/-- SlackClient.reset_alert (bot.py lines 91-97): clear the flag exactly
when the count is at or below 20 while the flag is set; no message is
sent either way.  Returns the new flag and whether a reset happened. -/
def reset_alert (alert_sent : Bool) (count : Nat) : Bool × Bool :=
  if count ≤ 20 && alert_sent then (false, true) else (alert_sent, false)

/-- One evaluation of a count against the alert state: the caller guards
the send path by count > 20 (bot.py lines 241-242) and runs the reset
path otherwise (bot.py lines 236-237), with the delivery succeeding.
Returns the new flag, the emitted alert event, and whether a reset
transition happened. -/
def evalStep (alert_sent : Bool) (count : Nat) : Bool × Option Nat × Bool :=
  if 20 < count then
    let r := send_alert alert_sent true
    (r.1, if r.2 then some count else none, false)
  else
    let r := reset_alert alert_sent count
    (r.1, none, r.2)

/-- The event/reset trace of a sequence of evaluated counts. -/
def runAlerts (alert_sent : Bool) : List Nat → List (Option Nat × Bool)
  | [] => []
  | c :: cs =>
    let s := evalStep alert_sent c
    (s.2.1, s.2.2) :: runAlerts s.1 cs

/-- Scanner over an event/reset trace: true when no alert event is
followed by another alert event without a reset transition in between.
The Boolean argument records whether an alert is pending a reset. -/
def noDoubleAlert : Bool → List (Option Nat × Bool) → Bool
  | _, [] => true
  | pending, (ev, rst) :: rest =>
    match ev with
    | some _ => if pending then false else noDoubleAlert true rest
    | none => noDoubleAlert (pending && !rst) rest

example :
    runAlerts false [18, 22, 25, 19, 23] =
      [(none, false), (some 22, false), (none, false), (none, true), (some 23, false)] := by
  decide

theorem extract_restart_requests_eq (msgs : List SlackMessage) :
    extract_restart_requests msgs =
      Except.ok ((msgs.filter fun m => isRestartRequest (m.text.getD "")).map
        fun m => removeStar (m.text.getD "")) := by
  induction msgs with
  | nil => rfl
  | cons msg rest ih =>
    have hemp : isRestartRequest "" = false := by decide
    cases h : msg.text with
    | none =>
      simp [extract_restart_requests, h, hemp, List.filter_cons, ih]
    | some t =>
      by_cases hc : isRestartRequest t = true
      · simp [extract_restart_requests, h, hc, List.filter_cons, ih, Bind.bind, Except.bind]
      · simp [extract_restart_requests, h, hc, List.filter_cons, ih]

theorem filter_nonempty_filter (msgs : List SlackMessage) :
    ((msgs.filter fun m => !(m.text.getD "" == "")).filter
        fun m => isRestartRequest (m.text.getD "")) =
      msgs.filter fun m => isRestartRequest (m.text.getD "") := by
  induction msgs with
  | nil => rfl
  | cons m rest ih =>
    have hemp : isRestartRequest "" = false := by decide
    by_cases h : m.text.getD "" = ""
    · have hf : isRestartRequest (m.text.getD "") = false := by rw [h]; exact hemp
      simp [List.filter_cons, h, hf, hemp, ih]
    · simp [List.filter_cons, h, ih]

theorem dictAssign_keys_self (d : SDict) (k0 : String) (v : List String) :
    k0 ∈ dictKeys (dictAssign d k0 v) := by
  induction d with
  | nil => simp [dictAssign, dictKeys]
  | cons kv rest ih =>
    obtain ⟨k1, v1⟩ := kv
    by_cases h : (k1 == k0) = true
    · simp [dictAssign, dictKeys, h]
      exact Or.inl (eq_of_beq h).symm
    · simp [dictAssign, dictKeys, h]
      exact Or.inr (by simpa [dictKeys] using ih)

theorem dictAssign_keys_mono (d : SDict) (k0 : String) (v : List String) (k : String) :
    k ∈ dictKeys d → k ∈ dictKeys (dictAssign d k0 v) := by
  induction d with
  | nil => intro h; simp [dictKeys] at h
  | cons kv rest ih =>
    obtain ⟨k1, v1⟩ := kv
    intro h
    rcases (by simpa [dictKeys] using h : k = k1 ∨ k ∈ dictKeys rest) with h' | h'
    · by_cases he : (k1 == k0) = true <;> simp [dictAssign, dictKeys, he, h']
    · by_cases he : (k1 == k0) = true <;> simp [dictAssign, dictKeys, he]
      · exact Or.inr (by simpa [dictKeys] using h')
      · exact Or.inr (by simpa [dictKeys] using ih h')

theorem dictAssign_keys_sub (d : SDict) (k0 : String) (v : List String) (k : String) :
    k ∈ dictKeys (dictAssign d k0 v) → k ∈ dictKeys d ∨ k = k0 := by
  induction d with
  | nil => intro h; simp [dictAssign, dictKeys] at h; exact Or.inr h
  | cons kv rest ih =>
    obtain ⟨k1, v1⟩ := kv
    intro h
    by_cases he : (k1 == k0) = true
    · rcases (by simpa [dictAssign, dictKeys, he] using h : k = k1 ∨ k ∈ dictKeys rest) with
        h' | h'
      · exact Or.inl (by simp [dictKeys, h'])
      · exact Or.inl (by simp [dictKeys]; exact Or.inr (by simpa [dictKeys] using h'))
    · rcases (by simpa [dictAssign, dictKeys, he] using h :
          k = k1 ∨ k ∈ dictKeys (dictAssign rest k0 v)) with h' | h'
      · exact Or.inl (by simp [dictKeys, h'])
      · rcases ih h' with h'' | h''
        · exact Or.inl (by simp [dictKeys]; exact Or.inr (by simpa [dictKeys] using h''))
        · exact Or.inr h''

theorem dictUpdate_keys_self (d : SDict) (k0 : String) (toks : List String) :
    k0 ∈ dictKeys (dictUpdate d k0 toks) := by
  induction d with
  | nil => simp [dictUpdate, dictKeys]
  | cons kv rest ih =>
    obtain ⟨k1, v1⟩ := kv
    by_cases h : (k1 == k0) = true
    · simp [dictUpdate, dictKeys, h]
      exact Or.inl (eq_of_beq h).symm
    · simp [dictUpdate, dictKeys, h]
      exact Or.inr (by simpa [dictKeys] using ih)

theorem dictUpdate_keys_mono (d : SDict) (k0 : String) (toks : List String) (k : String) :
    k ∈ dictKeys d → k ∈ dictKeys (dictUpdate d k0 toks) := by
  induction d with
  | nil => intro h; simp [dictKeys] at h
  | cons kv rest ih =>
    obtain ⟨k1, v1⟩ := kv
    intro h
    rcases (by simpa [dictKeys] using h : k = k1 ∨ k ∈ dictKeys rest) with h' | h'
    · by_cases he : (k1 == k0) = true <;> simp [dictUpdate, dictKeys, he, h']
    · by_cases he : (k1 == k0) = true <;> simp [dictUpdate, dictKeys, he]
      · exact Or.inr (by simpa [dictKeys] using h')
      · exact Or.inr (by simpa [dictKeys] using ih h')

theorem dictUpdate_keys_sub (d : SDict) (k0 : String) (toks : List String) (k : String) :
    k ∈ dictKeys (dictUpdate d k0 toks) → k ∈ dictKeys d ∨ k = k0 := by
  induction d with
  | nil => intro h; simp [dictUpdate, dictKeys] at h; exact Or.inr h
  | cons kv rest ih =>
    obtain ⟨k1, v1⟩ := kv
    intro h
    by_cases he : (k1 == k0) = true
    · rcases (by simpa [dictUpdate, dictKeys, he] using h : k = k1 ∨ k ∈ dictKeys rest) with
        h' | h'
      · exact Or.inl (by simp [dictKeys, h'])
      · exact Or.inl (by simp [dictKeys]; exact Or.inr (by simpa [dictKeys] using h'))
    · rcases (by simpa [dictUpdate, dictKeys, he] using h :
          k = k1 ∨ k ∈ dictKeys (dictUpdate rest k0 toks)) with h' | h'
      · exact Or.inl (by simp [dictKeys, h'])
      · rcases ih h' with h'' | h''
        · exact Or.inl (by simp [dictKeys]; exact Or.inr (by simpa [dictKeys] using h''))
        · exact Or.inr h''

theorem serviceKeyOf_of_riskManagerCase (s : String) (h : riskManagerCase s = true) :
    serviceKeyOf s = "risk-manager" := by
  simp [serviceKeyOf, h]

theorem processMatch_keys_mono (request : String) (d : SDict) (m k : String) :
    k ∈ dictKeys d → k ∈ dictKeys (processMatch request d m) := by
  intro h
  simp only [processMatch]
  by_cases hr : riskManagerCase (pyLower m) = true
  · rw [if_pos hr]; exact dictAssign_keys_mono d _ _ k h
  · rw [if_neg hr]
    cases hc : searchClause m.data request.data with
    | none => exact h
    | some cap => exact dictUpdate_keys_mono d _ _ k h

theorem processMatch_keys_sub (request : String) (d : SDict) (m k : String) :
    k ∈ dictKeys (processMatch request d m) →
      k ∈ dictKeys d ∨ k = serviceKeyOf (pyLower m) := by
  intro hk
  simp only [processMatch] at hk
  by_cases hr : riskManagerCase (pyLower m) = true
  · rw [if_pos hr] at hk
    rcases dictAssign_keys_sub d _ _ k hk with h' | h'
    · exact Or.inl h'
    · exact Or.inr (by rw [h', serviceKeyOf_of_riskManagerCase _ hr])
  · rw [if_neg hr] at hk
    cases hc : searchClause m.data request.data with
    | none => rw [hc] at hk; exact Or.inl hk
    | some cap =>
      rw [hc] at hk
      exact dictUpdate_keys_sub d _ _ k hk

theorem processMatch_keys_of_empty (request : String) (d : SDict) (m k : String) :
    k ∈ dictKeys (processMatch request [] m) → k ∈ dictKeys (processMatch request d m) := by
  intro hk
  have h' : k = serviceKeyOf (pyLower m) := by
    rcases processMatch_keys_sub request [] m k hk with h0 | h0
    · simp [dictKeys] at h0
    · exact h0
  simp only [processMatch] at hk ⊢
  by_cases hr : riskManagerCase (pyLower m) = true
  · rw [if_pos hr]
    rw [h', serviceKeyOf_of_riskManagerCase _ hr]
    exact dictAssign_keys_self d _ _
  · rw [if_neg hr] at hk ⊢
    cases hc : searchClause m.data request.data with
    | none =>
      rw [hc] at hk
      simp [dictKeys] at hk
    | some cap =>
      rw [h']
      exact dictUpdate_keys_self d _ _

theorem foldl_processMatch_keys_mono (request : String) (ms : List String) :
    ∀ d k, k ∈ dictKeys d → k ∈ dictKeys (ms.foldl (processMatch request) d) := by
  induction ms with
  | nil => intro d k h; exact h
  | cons m0 ms ih =>
    intro d k h
    exact ih _ k (processMatch_keys_mono request d m0 k h)

theorem foldl_processMatch_keys_of_mem (request : String) (ms : List String) :
    ∀ d m k, m ∈ ms → k ∈ dictKeys (processMatch request [] m) →
      k ∈ dictKeys (ms.foldl (processMatch request) d) := by
  induction ms with
  | nil => intro d m k h; exact absurd h (List.not_mem_nil m)
  | cons m0 ms ih =>
    intro d m k hm hk
    rcases List.mem_cons.mp hm with rfl | hm'
    · exact foldl_processMatch_keys_mono request ms _ k
        (processMatch_keys_of_empty request d m k hk)
    · exact ih _ m k hm' hk

theorem dictKeys_render (d : SDict) :
    dictKeys (d.map fun kv => (kv.1, renderVal kv.2)) = dictKeys d := by
  induction d with
  | nil => rfl
  | cons kv rest ih => simp [dictKeys]

theorem dictLookup_dictAssign_self (d : SDict) (k0 : String) (v : List String) :
    dictLookup (dictAssign d k0 v) k0 = some v := by
  induction d with
  | nil => simp [dictAssign, dictLookup]
  | cons kv rest ih =>
    obtain ⟨k1, v1⟩ := kv
    by_cases h : (k1 == k0) = true <;> simp [dictAssign, dictLookup, h, ih]

theorem dictLookup_dictUpdate_ne (d : SDict) (k0 k' : String) (toks : List String)
    (hne : k' ≠ k0) : dictLookup (dictUpdate d k0 toks) k' = dictLookup d k' := by
  induction d with
  | nil =>
    have h0 : (k0 == k') = false := beq_eq_false_iff_ne.mpr (Ne.symm hne)
    simp [dictUpdate, dictLookup, h0]
  | cons kv rest ih =>
    obtain ⟨k1, v1⟩ := kv
    by_cases h : (k1 == k0) = true
    · have h1 : (k1 == k') = false := by
        rw [eq_of_beq h]
        exact beq_eq_false_iff_ne.mpr (Ne.symm hne)
      simp [dictUpdate, dictLookup, h, h1]
    · by_cases h2 : (k1 == k') = true <;> simp [dictUpdate, dictLookup, h, h2, ih]

theorem dictLookup_render (d : SDict) (k : String) :
    dictLookup (d.map fun kv => (kv.1, renderVal kv.2)) k =
      Option.map renderVal (dictLookup d k) := by
  induction d with
  | nil => rfl
  | cons kv rest ih =>
    obtain ⟨k1, v1⟩ := kv
    by_cases h : (k1 == k) = true <;> simp [dictLookup, h, ih]

theorem serviceKeyOf_ne_riskmanager (s : String) (h : riskManagerCase s = false) :
    serviceKeyOf s ≠ "risk-manager" := by
  rw [serviceKeyOf, if_neg (by simp [h])]
  split_ifs
  · decide
  · decide
  · decide
  · decide
  · decide
  · intro he
    rw [he] at h
    exact absurd h (by decide)

theorem processMatch_preserves_rm (request : String) (d : SDict) (m : String)
    (h : dictLookup d "risk-manager" = some ["1"]) :
    dictLookup (processMatch request d m) "risk-manager" = some ["1"] := by
  simp only [processMatch]
  by_cases hr : riskManagerCase (pyLower m) = true
  · rw [if_pos hr]
    exact dictLookup_dictAssign_self d _ _
  · rw [if_neg hr]
    cases hc : searchClause m.data request.data with
    | none => exact h
    | some cap =>
      have hb : riskManagerCase (pyLower m) = false := eq_false_of_ne_true hr
      rw [dictLookup_dictUpdate_ne d _ _ _ (Ne.symm (serviceKeyOf_ne_riskmanager _ hb))]
      exact h

theorem processMatch_sets_rm (request : String) (d : SDict) (m : String)
    (hr : riskManagerCase (pyLower m) = true) :
    dictLookup (processMatch request d m) "risk-manager" = some ["1"] := by
  simp only [processMatch]
  rw [if_pos hr]
  exact dictLookup_dictAssign_self d _ _

theorem foldl_processMatch_preserves_rm (request : String) (ms : List String) :
    ∀ d, dictLookup d "risk-manager" = some ["1"] →
      dictLookup (ms.foldl (processMatch request) d) "risk-manager" = some ["1"] := by
  induction ms with
  | nil => intro d h; exact h
  | cons m0 ms ih =>
    intro d h
    exact ih _ (processMatch_preserves_rm request d m0 h)

theorem foldl_processMatch_sets_rm (request : String) (ms : List String) :
    ∀ d m, m ∈ ms → riskManagerCase (pyLower m) = true →
      dictLookup (ms.foldl (processMatch request) d) "risk-manager" = some ["1"] := by
  induction ms with
  | nil => intro d m h; exact absurd h (List.not_mem_nil m)
  | cons m0 ms ih =>
    intro d m hm hcase
    rcases List.mem_cons.mp hm with rfl | hm'
    · exact foldl_processMatch_preserves_rm request ms _ (processMatch_sets_rm request d m hcase)
    · exact ih _ m hm' hcase

theorem processRequest_preserves_rm (d : SDict) (r : String)
    (h : dictLookup d "risk-manager" = some ["1"]) :
    dictLookup (processRequest d r) "risk-manager" = some ["1"] :=
  foldl_processMatch_preserves_rm r _ d h

theorem foldl_processRequest_preserves_rm (requests : List String) :
    ∀ d, dictLookup d "risk-manager" = some ["1"] →
      dictLookup (requests.foldl processRequest d) "risk-manager" = some ["1"] := by
  induction requests with
  | nil => intro d h; exact h
  | cons r rs ih =>
    intro d h
    exact ih _ (processRequest_preserves_rm d r h)

theorem foldl_processRequest_sets_rm (requests : List String) :
    ∀ d r m, r ∈ requests → m ∈ regexFindall serviceKeywordList r →
      riskManagerCase (pyLower m) = true →
      dictLookup (requests.foldl processRequest d) "risk-manager" = some ["1"] := by
  induction requests with
  | nil => intro d r m h; exact absurd h (List.not_mem_nil r)
  | cons r0 rs ih =>
    intro d r m hr hm hcase
    rcases List.mem_cons.mp hr with rfl | hr'
    · exact foldl_processRequest_preserves_rm rs _
        (foldl_processMatch_sets_rm r _ d m hm hcase)
    · exact ih _ r m hr' hm hcase

/-- C4.  Every non-overlapping findall occurrence of a service keyword in
a request is processed, not only the first: whatever key a given
occurrence would record on its own appears among the keys of the full
extraction of that request. -/
theorem extractor_all_occurrences :
    ∀ request m : String, m ∈ regexFindall serviceKeywordList request →
      ∀ k, k ∈ dictKeys (processMatch request [] m) →
        k ∈ dictKeys (extract_services [request]) := by
  intro request m hm k hk
  have hdef : extract_services [request] =
      (processRequest [] request).map fun kv => (kv.1, renderVal kv.2) := rfl
  rw [hdef, dictKeys_render, processRequest]
  exact foldl_processMatch_keys_of_mem request _ [] m k hm hk

/-- Witness for C4 on a request naming two services: the key contributed
by the second occurrence is present in the extraction. -/
theorem extractor_all_occurrences_witness :
    "ecn" ∈ dictKeys (extract_services ["restart pa: X1\necn - Y2"]) :=
  extractor_all_occurrences "restart pa: X1\necn - Y2" "ecn" (by decide) "ecn" (by decide)

/-- C5.  The spaced spelling risk manager is a member of the
risk-manager synonym family, yet the extractor records its details under
the raw lowered spelling "risk manager", not under "risk-manager", so a
raw synonym spelling does appear as a key of the output mapping. -/
theorem synonym_table_counterexample :
    extract_services ["restart risk manager: A"] = [("risk manager", ["A"])] ∧
      "risk manager" ≠ "risk-manager" :=
  ⟨by decide, by decide⟩

/-- C5 (amended).  Key normalization is the total deterministic function
serviceKeyOf of the lowered matched text, and every key the extractor
ever records is obtained through it; the price-aggregator, driver and
ecn/mm families map to their canonical identifiers, but in the
risk-manager family only the camel-case spelling (lowered, riskmanager)
maps to risk-manager, while "risk manager" and "manager" are kept as
their own lowered spellings. -/
theorem synonym_table_amended :
    (serviceKeyOf "price-aggregator" = "price-aggregator" ∧
      serviceKeyOf "price_aggregator" = "price-aggregator" ∧
      serviceKeyOf "pa" = "price-aggregator") ∧
    (serviceKeyOf "driver" = "market-driver" ∧
      serviceKeyOf "mddriver" = "market-driver" ∧
      serviceKeyOf "drivers" = "market-driver" ∧
      serviceKeyOf "md" = "market-driver") ∧
    (serviceKeyOf "ecn/mm" = "ecn/mm" ∧ serviceKeyOf "ecn and mm" = "ecn/mm") ∧
    (serviceKeyOf "riskmanager" = "risk-manager" ∧
      serviceKeyOf "risk manager" = "risk manager" ∧
      serviceKeyOf "manager" = "manager") ∧
    (∀ request d m k, k ∈ dictKeys (processMatch request d m) →
      k ∈ dictKeys d ∨ k = serviceKeyOf (pyLower m)) := by
  refine ⟨by decide, by decide, by decide, by decide, ?_⟩
  intro request d m k hk
  exact processMatch_keys_sub request d m k hk

/-- Witness for C5 at the spaced spelling: the key recorded for a match
of "risk manager" is its own lowered spelling. -/
theorem synonym_table_amended_witness :
    "risk manager" ∈ dictKeys ([] : SDict) ∨
      "risk manager" = serviceKeyOf (pyLower "risk manager") :=
  synonym_table_amended.2.2.2.2 "restart risk manager: A" [] "risk manager" "risk manager"
    (by decide)

/-- C6.  The bare synonym "manager" belongs to the risk-manager family,
yet a request matching it yields its details under the key "manager" and
no "risk-manager" entry at all, contradicting the sentinel rule as
claimed for every family member. -/
theorem riskmanager_sentinel_counterexample :
    extract_services ["restart manager - B2"] = [("manager", ["B2"])] ∧
      dictLookup (extract_services ["restart manager - B2"]) "risk-manager" = none :=
  ⟨by decide, by decide⟩

/-- C6 (amended).  Whenever a matched synonym lowers to riskmanager (the
camel-case spelling) or to risk-manager, the extraction of the whole
batch maps risk-manager to exactly the sentinel detail list containing
"1", regardless of any trailing details clause and of how many other
occurrences or messages the batch holds. -/
theorem riskmanager_sentinel_amended :
    ∀ requests : List String,
      (∃ r, r ∈ requests ∧ ∃ m, m ∈ regexFindall serviceKeywordList r ∧
          riskManagerCase (pyLower m) = true) →
      dictLookup (extract_services requests) "risk-manager" = some ["1"] := by
  intro requests h
  obtain ⟨r, hr, m, hm, hcase⟩ := h
  have hbase : dictLookup (requests.foldl processRequest []) "risk-manager" = some ["1"] :=
    foldl_processRequest_sets_rm requests [] r m hr hm hcase
  have hdef : extract_services requests =
      (requests.foldl processRequest []).map fun kv => (kv.1, renderVal kv.2) := rfl
  rw [hdef, dictLookup_render, hbase]
  rfl

/-- Witness for C6 at a camel-case match with a trailing details clause:
the sentinel wins over the clause. -/
theorem riskmanager_sentinel_amended_witness :
    dictLookup (extract_services ["restart RiskManager: blah"]) "risk-manager" = some ["1"] :=
  riskmanager_sentinel_amended ["restart RiskManager: blah"]
    ⟨"restart RiskManager: blah", by decide, "RiskManager", by decide, by decide⟩

/-- C7.  The standalone abbreviation mm is a canonical service outside
the three named ones, yet its details split only on comma, slash or
pipe: the clause "A + B" stays a single token instead of splitting at
the plus sign as the claimed rule for other services requires. -/
theorem split_rule_counterexample :
    extract_services ["restart mm - A + B"] = [("mm", ["A + B"])] ∧
      (["A + B"] : List String) ≠ ["A", "B"] :=
  ⟨by decide, by decide⟩

/-- C7 (amended).  The services of the ecn/mm, price-aggregator and
driver families together with the standalone abbreviations mm and ecn
split details only on comma, slash or pipe; every other matched service
name falls to the else branch splitting on comma, pipe or plus, and the
clause "market driver: A, B + REF" indeed yields the three tokens A, B
and REF under that rule. -/
theorem split_rule_amended :
    (∀ dtl : String,
      detailTokensOf "ecn/mm" dtl = splitCSP dtl ∧
      detailTokensOf "ecn and mm" dtl = splitCSP dtl ∧
      detailTokensOf "price-aggregator" dtl = splitCSP dtl ∧
      detailTokensOf "pa" dtl = splitCSP dtl ∧
      detailTokensOf "driver" dtl = splitCSP dtl ∧
      detailTokensOf "md" dtl = splitCSP dtl ∧
      detailTokensOf "mm" dtl = splitCSP dtl ∧
      detailTokensOf "ecn" dtl = splitCSP dtl) ∧
    (∀ s dtl : String, usesSlashSplit s = false → detailTokensOf s dtl = splitCP dtl) ∧
    splitCP "A, B + REF" = ["A", "B", "REF"] ∧
    extract_services ["restart market driver: A, B + REF"] =
      [("market driver", ["A", "B", "REF"])] := by
  refine ⟨?_, ?_, by decide, by decide⟩
  · intro dtl
    exact ⟨rfl, rfl, rfl, rfl, rfl, rfl, rfl, rfl⟩
  · intro s dtl h
    simp [detailTokensOf, h]

/-- Witness for C7 at the spelled-out driver name, which is not in the
slash-split table and therefore splits on comma, pipe or plus. -/
theorem split_rule_amended_witness :
    detailTokensOf "market driver" "A, B + REF" = splitCP "A, B + REF" :=
  split_rule_amended.2.1 "market driver" "A, B + REF" (by decide)

/-- C1.  The claim's scoring formula counts detail tokens containing the
substring "REF"; the code's bonus tests the substring "+ REF", so the
two disagree on a report whose only detail is the bare token "REF". -/
theorem score_ref_counterexample :
    count_score [("market-driver", ["REF"])] ≠ claimedScore [("market-driver", ["REF"])] := by
  decide

/-- C1 (amended).  For every aggregated report, the score equals the sum
over services of detail count times weight (2 for ecn/mm and its
word-order variant, 1 otherwise) plus, per service, the number of detail
tokens containing the case-sensitive substring "+ REF". -/
theorem score_formula_amended : ∀ d : SDict, count_score d = amendedScore d := by
  intro d
  induction d with
  | nil => rfl
  | cons kv rest ih =>
    simp only [count_score, amendedScore, specWeight, List.map_cons, List.sum_cons] at *
    omega

theorem noDoubleAlert_runAlerts (counts : List Nat) :
    ∀ st, noDoubleAlert st (runAlerts st counts) = true := by
  induction counts with
  | nil => intro st; rfl
  | cons c cs ih =>
    intro st
    by_cases h : 20 < c
    · cases st <;>
        simp [runAlerts, evalStep, send_alert, h, noDoubleAlert, ih]
    · have h' : c ≤ 20 := Nat.le_of_not_lt h
      cases st <;>
        simp [runAlerts, evalStep, reset_alert, h, h', noDoubleAlert, ih]

/-- C2.  Against the fixed thresholds 20/20: an evaluation emits an alert
exactly when the count exceeds 20 while the flag is unarmed, the next
state is armed exactly when the count exceeds 20 (so firing latches, an
armed state stays latched above the threshold, and a count at or below
20 silently unlatches), the reset transition happens exactly when the
count is at or below 20 while armed, and no evaluation sequence from the
unarmed state ever emits two alerts without a reset transition between
them. -/
theorem alert_hysteresis :
    (∀ st c, (evalStep st c).2.1 = if 20 < c ∧ st = false then some c else none) ∧
    (∀ st c, (evalStep st c).1 = decide (20 < c)) ∧
    (∀ st c, (evalStep st c).2.2 = (decide (c ≤ 20) && st)) ∧
    (∀ counts, noDoubleAlert false (runAlerts false counts) = true) := by
  refine ⟨?_, ?_, ?_, fun counts => noDoubleAlert_runAlerts counts false⟩
  · intro st c
    by_cases h : 20 < c <;> cases st <;>
      simp [evalStep, send_alert, reset_alert, h]
  · intro st c
    by_cases h : 20 < c
    · cases st <;> simp [evalStep, send_alert, h]
    · have h' : c ≤ 20 := Nat.le_of_not_lt h
      cases st <;> simp [evalStep, reset_alert, h, h']
  · intro st c
    by_cases h : 20 < c
    · have h' : ¬ c ≤ 20 := Nat.not_le.mpr h
      cases st <;> simp [evalStep, send_alert, h, h']
    · have h' : c ≤ 20 := Nat.le_of_not_lt h
      cases st <;> simp [evalStep, reset_alert, h, h']

/-- C3.  The armed flag after a send attempt is the previous flag or-ed
with the delivery outcome: a failed delivery never latches, and from the
unarmed state an alert goes out exactly when delivery succeeds, so a
failure leaves the machine able to retry. -/
theorem alert_latch_only_on_success :
    (∀ st ok, (send_alert st ok).1 = (st || ok)) ∧
    (∀ ok, (send_alert false ok).2 = ok) := by
  constructor
  · intro st ok; cases st <;> cases ok <;> rfl
  · intro ok; cases ok <;> rfl

/-- C8.  A text lacking a whole-word restart/reboot keyword or lacking
every service keyword is not classified as a restart request, and a
message carrying it contributes nothing to the filter output. -/
theorem filter_conjunction_necessary :
    ∀ t : String,
      regexSearch restartKeywordList t = false ∨ regexSearch serviceKeywordList t = false →
      isRestartRequest t = false ∧
        extract_restart_requests [⟨some t⟩] = Except.ok [] := by
  intro t h
  have hf : isRestartRequest t = false := by
    cases h with
    | inl h => simp [isRestartRequest, h]
    | inr h => simp [isRestartRequest, h]
  exact ⟨hf, by simp [extract_restart_requests, hf]⟩

/-- Witness for C8 at a text with a restart keyword but no service
keyword. -/
theorem filter_conjunction_necessary_witness :
    isRestartRequest "please restart the vm" = false ∧
      extract_restart_requests [⟨some "please restart the vm"⟩] = Except.ok [] :=
  filter_conjunction_necessary "please restart the vm" (Or.inr (by decide))

/-- C9.  The filter does rewrite the text it passes downstream: an
accepted message containing asterisks is emitted with them removed, not
with its original text. -/
theorem filter_rewrites_counterexample :
    extract_restart_requests [⟨some "*restart* ecn/mm now"⟩] =
        Except.ok ["restart ecn/mm now"] ∧
      "restart ecn/mm now" ≠ "*restart* ecn/mm now" :=
  ⟨by rfl, by decide⟩

/-- C9 (amended).  Every accepted message is emitted with exactly the
asterisk characters removed from its original text and no other change:
the filter output is the accepted messages mapped through removeStar. -/
theorem filter_output_text :
    ∀ msgs : List SlackMessage,
      extract_restart_requests msgs =
        Except.ok ((msgs.filter fun m => isRestartRequest (m.text.getD "")).map
          fun m => removeStar (m.text.getD "")) :=
  extract_restart_requests_eq

/-- C10.  The filter never fails on message records lacking a text field
or carrying an empty text: it always returns a result, the empty text is
never accepted (the keyword test runs on the defaulted empty string
before any direct field access), and removing all such records from the
batch leaves the output unchanged. -/
theorem filter_missing_text_safe :
    (∀ msgs : List SlackMessage, ∃ out, extract_restart_requests msgs = Except.ok out) ∧
    isRestartRequest "" = false ∧
    (∀ msgs : List SlackMessage,
      extract_restart_requests (msgs.filter fun m => !(m.text.getD "" == "")) =
        extract_restart_requests msgs) := by
  refine ⟨fun msgs => ⟨_, extract_restart_requests_eq msgs⟩, by decide, fun msgs => ?_⟩
  rw [extract_restart_requests_eq, extract_restart_requests_eq, filter_nonempty_filter]

